import Mathlib

/-!
Verification of the tally-supabase-wizard repository.

This file gives a shallow embedding of the data model and the operations of
the repository (the XML response cleaning pipeline, the flat-record
extractors, the schema inference, and the Supabase sync layer), and proves
or refutes the specification claims about them.

String-processing code is modelled on lists of characters; Python regular
expression substitution (re.sub) is modelled by left-to-right scanners that
mirror the semantics of the concrete patterns used by the source.
-/

/-! ## Character predicates used by clean_xml_response -/

/-- Characters removed by the control-character pattern of the source,
the ranges 00-08, 0B, 0C, 0E-1F and 7F. -/
def strippedCtrl (c : Char) : Bool :=
  c.toNat ≤ 8 || c.toNat == 11 || c.toNat == 12 ||
    (14 ≤ c.toNat && c.toNat ≤ 31) || c.toNat == 127

/-- ASCII letters a-z and A-Z, the character class of the pattern
removing namespace name qualifiers. -/
def isAsciiLetter (c : Char) : Bool :=
  ('a' ≤ c && c ≤ 'z') || ('A' ≤ c && c ≤ 'Z')

/-! ## The cleaning pipeline of clean_xml_response -/

/-- Step 1 of clean_xml_response: remove every NUL character. -/
def removeNulls (l : List Char) : List Char :=
  l.filter (fun c => !(c == '\x00'))

/-- Step 2 of clean_xml_response: remove the invalid control characters. -/
def stripCtrl (l : List Char) : List Char :=
  l.filter (fun c => !(strippedCtrl c))

/-- Step 3 of clean_xml_response: replace every ampersand by the five
characters of the escaped entity. -/
def replaceAmp : List Char → List Char
  | [] => []
  | c :: rest =>
    if c == '&' then '&' :: 'a' :: 'm' :: 'p' :: ';' :: replaceAmp rest
    else c :: replaceAmp rest

/-- Skip characters up to and including the next double quote; none when
no closing quote exists (the pattern then fails to match). -/
def dropThroughQuote : List Char → Option (List Char)
  | [] => none
  | c :: rest => if c == '"' then some rest else dropThroughQuote rest

/-- One match attempt of the pattern removing declarations of the form
xmlns:name="value" at the head of the list; on success the returned list
is the remainder after the matched span. -/
def matchXmlnsColonDecl (l : List Char) : Option (List Char) :=
  match l with
  | 'x' :: 'm' :: 'l' :: 'n' :: 's' :: ':' :: rest =>
    match rest.dropWhile (fun c => !(c == '=')) with
    | '=' :: '"' :: rest3 => dropThroughQuote rest3
    | _ => none
  | _ => none

/-- One match attempt of the pattern removing a run of one or more ASCII
letters followed by a colon, at the head of the list. -/
def matchLetterRunColon (l : List Char) : Option (List Char) :=
  if (l.takeWhile isAsciiLetter).isEmpty then none
  else
    match l.dropWhile isAsciiLetter with
    | ':' :: tail => some tail
    | _ => none

/-- One match attempt of the pattern removing declarations of the form
xmlns="value" at the head of the list. -/
def matchXmlnsDecl : List Char → Option (List Char)
  | 'x' :: 'm' :: 'l' :: 'n' :: 's' :: '=' :: '"' :: rest => dropThroughQuote rest
  | _ => none

/-- Left-to-right removal of every non-overlapping match, as performed by
re.sub with an empty replacement: at each position the matcher is tried;
on success scanning resumes after the matched span, otherwise the current
character is kept and scanning advances one position.  The fuel argument
bounds the recursion and is instantiated with the list length, which every
run leaves unexhausted since each step consumes at least one character. -/
def scanRemove (m : List Char → Option (List Char)) : Nat → List Char → List Char
  | 0, l => l
  | _ + 1, [] => []
  | n + 1, c :: rest =>
    match m (c :: rest) with
    | some tail => scanRemove m n tail
    | none => c :: scanRemove m n rest

/-- re.sub of one of the removal patterns over a whole list. -/
def pySub (m : List Char → Option (List Char)) (l : List Char) : List Char :=
  scanRemove m l.length l

/-- clean_xml_response on character lists: the six transformation steps of
the source in order. -/
def cleanChars (l : List Char) : List Char :=
  pySub matchXmlnsDecl
    (pySub matchLetterRunColon
      (pySub matchXmlnsColonDecl
        (replaceAmp (stripCtrl (removeNulls l)))))

/-- clean_xml_response on strings. -/
def clean_xml_response (s : String) : String :=
  String.mk (cleanChars s.data)

/-! ## Observations on cleaned text -/

/-- Whether some ASCII letter is immediately followed by a colon. -/
def hasLetterColon : List Char → Bool
  | a :: b :: rest => (isAsciiLetter a && b == ':') || hasLetterColon (b :: rest)
  | _ => false

/-! ## Parsed XML documents and the ElementTree operations used -/

/-- A parsed XML element: tag, text content before the first child, and
the list of child elements, as exposed by xml.etree.ElementTree. -/
inductive XmlElem where
  | mk (tag : String) (text : Option String) (children : List XmlElem)

/-- The tag of an element. -/
def XmlElem.tag : XmlElem → String
  | XmlElem.mk t _ _ => t

/-- The text of an element; none models a Python None text. -/
def XmlElem.text : XmlElem → Option String
  | XmlElem.mk _ tx _ => tx

/-- The direct children of an element. -/
def XmlElem.children : XmlElem → List XmlElem
  | XmlElem.mk _ _ cs => cs

mutual

/-- Element.iter(tag): the element itself when its tag matches, followed by
the matching descendants of each child in document order. -/
def iterTag (tg : String) : XmlElem → List XmlElem
  | XmlElem.mk t tx cs =>
    (if t = tg then [XmlElem.mk t tx cs] else []) ++ iterTagList tg cs

/-- iterTag over a list of sibling elements, in order. -/
def iterTagList (tg : String) : List XmlElem → List XmlElem
  | [] => []
  | e :: es => iterTag tg e ++ iterTagList tg es

end

/-- Element.findtext(tag): the text of the first direct child with the
given tag, the empty string when that child has no text, and none (the
default) when no direct child matches. -/
def findtext (e : XmlElem) (tg : String) : Option String :=
  match e.children.find? (fun c => c.tag = tg) with
  | some c => some (c.text.getD "")
  | none => none

/-- A flat record extracted from XML: field name to text-or-null. -/
abbrev XRecord := List (String × Option String)

/-- The shared extraction pattern of get_companies, get_divisions,
get_ledgers and get_groups: for every COLLECTION element found anywhere in
the document, one record per direct child of that element, whose fields
are read with findtext from the child. -/
def extractFromCollections (fields : List (String × String)) (root : XmlElem) : List XRecord :=
  (iterTag "COLLECTION" root).flatMap
    (fun coll => coll.children.map
      (fun e => fields.map (fun p => (p.1, findtext e p.2))))

/-- The output field list of get_companies. -/
def companyFields : List (String × String) :=
  [("Name", "NAME"), ("GUID", "GUID"), ("Email", "EMAIL"), ("State", "STATE"),
   ("Pincode", "PINCODE"), ("Phone", "PHONE"), ("CompanyNumber", "COMPANYNUMBER")]

/-- The output field list of get_divisions. -/
def divisionFields : List (String × String) :=
  [("Name", "NAME"), ("GUID", "GUID"), ("Parent", "PARENT"), ("Category", "CATEGORY")]

/-- The output field list of get_ledgers. -/
def ledgerFields : List (String × String) :=
  [("Name", "NAME"), ("GUID", "GUID"), ("Parent", "PARENT"),
   ("OpeningBalance", "OPENINGBALANCE"), ("ClosingBalance", "CLOSINGBALANCE")]

/-- The output field list of get_groups. -/
def groupFields : List (String × String) :=
  [("Name", "NAME"), ("GUID", "GUID"), ("Parent", "PARENT")]

/-- get_companies applied to an already parsed response document. -/
def get_companies (root : XmlElem) : List XRecord :=
  extractFromCollections companyFields root

/-- get_divisions applied to an already parsed response document. -/
def get_divisions (root : XmlElem) : List XRecord :=
  extractFromCollections divisionFields root

/-- get_ledgers applied to an already parsed response document. -/
def get_ledgers (root : XmlElem) : List XRecord :=
  extractFromCollections ledgerFields root

/-- get_groups applied to an already parsed response document. -/
def get_groups (root : XmlElem) : List XRecord :=
  extractFromCollections groupFields root

/-- get_vouchers applied to an already parsed response document: one
record per VOUCHER element found at any depth. -/
def get_vouchers (root : XmlElem) : List XRecord :=
  (iterTag "VOUCHER" root).map
    (fun v =>
      [("VoucherNumber", findtext v "VOUCHERNUMBER"), ("Date", findtext v "DATE"),
       ("VoucherTypeName", findtext v "VOUCHERTYPENAME"), ("Narration", findtext v "NARRATION"),
       ("Reference", findtext v "REFERENCE"), ("Amount", findtext v "AMOUNT")])

/-- get_voucher_entries applied to an already parsed response document:
for every VOUCHER element at any depth, one record per LEDGERENTRY element
found at any depth inside that voucher. -/
def get_voucher_entries (root : XmlElem) : List XRecord :=
  (iterTag "VOUCHER" root).flatMap
    (fun v => (iterTag "LEDGERENTRY" v).map
      (fun le =>
        [("VoucherNumber", findtext v "VOUCHERNUMBER"), ("VoucherDate", findtext v "DATE"),
         ("VoucherType", findtext v "VOUCHERTYPENAME"), ("LedgerName", findtext le "LEDGERNAME"),
         ("Amount", findtext le "AMOUNT"), ("Narration", findtext le "NARRATION"),
         ("PartyLedgerName", findtext le "PARTYLEDGERNAME")]))

/-- safe_parse_xml: clean the text, hand it to the external parser, and on
a parse failure return that same error together with the two log lines,
the second carrying the first 500 characters of the original uncleaned
text.  The external ET.fromstring parser and the rendering of its error
are parameters of the model. -/
def safe_parse_xml (fromstring : String → Except ε XmlElem) (errMsg : ε → String)
    (xmlText : String) : Except ε XmlElem × List String :=
  match fromstring (clean_xml_response xmlText) with
  | Except.ok root => (Except.ok root, [])
  | Except.error e =>
    (Except.error e,
      ["XML Parse Error: " ++ errMsg e,
       "XML Content (first 500 chars): " ++ xmlText.take 500])

/-! ## Python values and records handed to the Supabase layer -/

/-- The Python values occurring in flattened records: None, bool, int,
float, str, list and dict.  Only the kind of a float is ever inspected by
the code under verification, so the float payload is not carried. -/
inductive PyValue where
  | pyNone
  | pyBool (b : Bool)
  | pyInt (n : Int)
  | pyFloat
  | pyStr (s : String)
  | pyList (xs : List PyValue)
  | pyDict (kvs : List (String × PyValue))

/-- A Python dict record: field names to values, in insertion order. -/
abbrev PyRecord := List (String × PyValue)

/-- Python dict item assignment: replace the value in place when the key
exists, otherwise append the new pair at the end. -/
def pySetItem : PyRecord → String → PyValue → PyRecord
  | [], k, v => [(k, v)]
  | kv :: rest, k, v =>
    if kv.1 == k then (k, v) :: rest else kv :: pySetItem rest k v

/-- Python dict lookup. -/
def pyGet : PyRecord → String → Option PyValue
  | [], _ => none
  | kv :: rest, k => if kv.1 == k then some kv.2 else pyGet rest k

/-- str.replace applied to a single Z: every occurrence of the character Z
is replaced by the six characters of the UTC offset. -/
def replaceZChars : List Char → List Char
  | [] => []
  | c :: rest =>
    if c == 'Z' then '+' :: '0' :: '0' :: ':' :: '0' :: '0' :: replaceZChars rest
    else c :: replaceZChars rest

/-- value.replace of Z by the UTC offset, on strings. -/
def pyReplaceZ (s : String) : String :=
  String.mk (replaceZChars s.data)

/-- The Z handling exactly as claim C4 words it: only a trailing Z is
replaced by the UTC offset, the rest of the string kept as it is. -/
def replaceTrailingZChars (l : List Char) : List Char :=
  if l.getLast? == some 'Z' then
    l.dropLast ++ ('+' :: '0' :: '0' :: ':' :: '0' :: '0' :: [])
  else l

/-- Trailing Z replacement on strings. -/
def claimReplaceTrailingZ (s : String) : String :=
  String.mk (replaceTrailingZChars s.data)

/-- infer_data_type of SupabaseManager.  The external
datetime.fromisoformat parser is abstracted by the isoOk parameter, which
holds exactly of the strings that parser accepts; the source applies it to
the value with every Z replaced by the UTC offset and classifies the
string as a timestamp when parsing succeeds. -/
def infer_data_type (isoOk : String → Bool) : PyValue → String
  | PyValue.pyNone => "TEXT"
  | PyValue.pyBool _ => "BOOLEAN"
  | PyValue.pyInt _ => "INTEGER"
  | PyValue.pyFloat => "NUMERIC"
  | PyValue.pyStr s =>
    if isoOk (pyReplaceZ s) then "TIMESTAMP WITH TIME ZONE" else "TEXT"
  | PyValue.pyList _ => "JSONB"
  | PyValue.pyDict _ => "JSONB"

/-- An inferred column: name, SQL type, nullability. -/
structure InferredColumn where
  name : String
  colType : String
  nullable : Bool
deriving DecidableEq

/-- analyze_data_structure of SupabaseManager: the empty list yields no
columns, otherwise one column per field of the first record, typed by
infer_data_type, always nullable. -/
def analyze_data_structure (isoOk : String → Bool) (data : List PyRecord) : List InferredColumn :=
  match data with
  | [] => []
  | sample :: _ =>
    sample.map (fun kv => InferredColumn.mk kv.1 (infer_data_type isoOk kv.2) true)

/-- The type mapping of the amended claim: the claimed value mapping, the
string test applying the replacement of every Z as the source performs it.
It differs from claimTrailingInferType, the mapping as the original claim
words it, on strings with a Z before the last character. -/
def claimInferType (isoOk : String → Bool) : PyValue → String
  | PyValue.pyNone => "TEXT"
  | PyValue.pyBool _ => "BOOLEAN"
  | PyValue.pyInt _ => "INTEGER"
  | PyValue.pyFloat => "NUMERIC"
  | PyValue.pyStr s =>
    if isoOk (pyReplaceZ s) then "TIMESTAMP WITH TIME ZONE" else "TEXT"
  | PyValue.pyList _ => "JSONB"
  | PyValue.pyDict _ => "JSONB"

/-- The type mapping exactly as the original claim C4 words it: a string
is classified as a timestamp when it parses as an ISO datetime after
replacing a trailing Z with the UTC offset. -/
def claimTrailingInferType (isoOk : String → Bool) : PyValue → String
  | PyValue.pyNone => "TEXT"
  | PyValue.pyBool _ => "BOOLEAN"
  | PyValue.pyInt _ => "INTEGER"
  | PyValue.pyFloat => "NUMERIC"
  | PyValue.pyStr s =>
    if isoOk (claimReplaceTrailingZ s) then "TIMESTAMP WITH TIME ZONE" else "TEXT"
  | PyValue.pyList _ => "JSONB"
  | PyValue.pyDict _ => "JSONB"

/-! ## insert_data of SupabaseManager -/

/-- The fixed user id added to every transmitted row. -/
def actualUserId : String := "faa3bf60-717e-4dd8-8159-e9dc1fe9b8d0"

/-- The fixed user id as a record value. -/
def uidVal : PyValue := PyValue.pyStr actualUserId

/-- The record preparation loop of insert_data, at the level of object
references: the heap is the store of live dict objects and the input list
holds addresses into it.  Each iteration reads the record, builds an
updated copy, allocates the copy as a fresh object, and collects the fresh
address; the original objects are never written. -/
def prepareLoop (heap : List PyRecord) : List Nat → List PyRecord × List Nat
  | [] => (heap, [])
  | a :: as =>
    let newRec := pySetItem (heap.getD a []) "user_id" uidVal
    let r := prepareLoop (heap ++ [newRec]) as
    (r.1, heap.length :: r.2)

/-- The value-level shadow of the preparation loop: every record with
user_id set to the fixed id. -/
def prepareData (data : List PyRecord) : List PyRecord :=
  data.map (fun r => pySetItem r "user_id" uidVal)

/-- The fixed batch size of insert_data. -/
def batchSize : Nat := 100

/-- The slices prepared[i : i + 100] for i = 0, 100, 200, ... as produced
by the batching loop of insert_data. -/
def chunks100 : List PyRecord → List (List PyRecord)
  | [] => []
  | x :: xs => ((x :: xs).take batchSize) :: chunks100 ((x :: xs).drop batchSize)
termination_by l => l.length
decreasing_by simp [batchSize]; omega

/-- Whether an HTTP status is accepted by insert_data. -/
def is2xx (code : Nat) : Bool := code == 200 || code == 201

/-- The batch posting loop of insert_data.  The remote endpoint is a state
machine: post maps a state and a batch to the next state and the response
status.  The result carries the overall flag, the list of batches actually
transmitted, and the final remote state; a non accepted status stops the
loop at once with failure, after the failing batch was transmitted. -/
def insertBatches (post : σ → List PyRecord → σ × Nat) : σ → List (List PyRecord) → Bool × List (List PyRecord) × σ
  | s, [] => (true, [], s)
  | s, b :: bs =>
    let r := post s b
    if is2xx r.2 then
      let rest := insertBatches post r.1 bs
      (rest.1, b :: rest.2.1, rest.2.2)
    else (false, [b], r.1)

/-- insert_data of SupabaseManager: an empty record list succeeds with no
request sent; otherwise the prepared records are posted in batches of 100. -/
def insert_data (post : σ → List PyRecord → σ × Nat) (s : σ) (data : List PyRecord) : Bool × List (List PyRecord) × σ :=
  if data.isEmpty then (true, [], s)
  else insertBatches post s (chunks100 (prepareData data))

/-- The statuses the remote would answer on the full batch sequence,
threading its state; the transcript insert_data is measured against. -/
def runStatuses (post : σ → List PyRecord → σ × Nat) : σ → List (List PyRecord) → List Nat
  | _, [] => []
  | s, b :: bs =>
    let r := post s b
    r.2 :: runStatuses post r.1 bs

/-! ## The synchronization layer -/

/-- The entity types sync_data_to_supabase can fetch; any other mapping
entry is skipped by the dispatch chain. -/
def knownTypes : List String :=
  ["companies", "divisions", "ledgers", "vouchers", "voucher_entries"]

/-- sync_data_to_supabase of TallySupabaseSync.  fetch abstracts the five
extractor calls, syncOne abstracts supabase_manager.sync_tally_data on a
one-table dictionary.  The result carries the overall flag, the per-entity
result entries (entity type, status, count), and the list of tables a
destination write was attempted for.  An entity whose fetch yields no
records is recorded as no_data with count 0 and triggers no write and no
failure. -/
def sync_data_to_supabase (fetch : String → List PyRecord)
    (syncOne : String → List PyRecord → Bool) :
    List (String × String) → Bool × List (String × String × Nat) × List String
  | [] => (true, [], [])
  | (ttype, tbl) :: rest =>
    let r := sync_data_to_supabase fetch syncOne rest
    if knownTypes.contains ttype then
      let data := fetch ttype
      if data.isEmpty then
        (r.1, (ttype, "no_data", 0) :: r.2.1, r.2.2)
      else
        let ok := syncOne tbl data
        (ok && r.1, (ttype, (if ok then "success" else "failed"), data.length) :: r.2.1,
          tbl :: r.2.2)
    else r

/-- sync_tally_data of SupabaseManager.  ensureOk, clearOk and insertOk
abstract ensure_table_schema, clear_table and insert_data.  The result
carries the overall flag and the transcript of destructive operations
attempted, each as an operation name with its table.  A table with an
empty record list is skipped entirely; a failing step marks failure and
moves on without the later steps for that table. -/
def sync_tally_data (ensureOk : String → List PyRecord → Bool)
    (clearOk : String → Bool) (insertOk : String → List PyRecord → Bool) :
    List (String × List PyRecord) → Bool × List (String × String)
  | [] => (true, [])
  | (tbl, data) :: rest =>
    let r := sync_tally_data ensureOk clearOk insertOk rest
    if data.isEmpty then r
    else if !(ensureOk tbl data) then (false, r.2)
    else if !(clearOk tbl) then (false, ("clear", tbl) :: r.2)
    else if !(insertOk tbl data) then
      (false, ("clear", tbl) :: ("insert", tbl) :: r.2)
    else (r.1, ("clear", tbl) :: ("insert", tbl) :: r.2)

/-! ## Concrete documents and inputs used by the example theorems -/

/-- A response document whose single COLLECTION holds one element whose
tag names no entity at all. -/
def docFooChild : XmlElem :=
  XmlElem.mk "ENVELOPE" none
    [XmlElem.mk "COLLECTION" none [XmlElem.mk "FOO" none []]]

/-- A response document holding three LEDGER elements, each with NAME and
OPENINGBALANCE children, none of them inside a COLLECTION element. -/
def docFreeLedgers : XmlElem :=
  XmlElem.mk "ENVELOPE" none
    [XmlElem.mk "LEDGER" none
       [XmlElem.mk "NAME" (some "Cash") [], XmlElem.mk "OPENINGBALANCE" (some "100") []],
     XmlElem.mk "LEDGER" none
       [XmlElem.mk "NAME" (some "Bank") [], XmlElem.mk "OPENINGBALANCE" (some "200") []],
     XmlElem.mk "LEDGER" none
       [XmlElem.mk "NAME" (some "Sales") [], XmlElem.mk "OPENINGBALANCE" (some "300") []]]

/-- A response document whose COLLECTION holds three LEDGER children, the
third without an OPENINGBALANCE child. -/
def docThreeLedgers : XmlElem :=
  XmlElem.mk "ENVELOPE" none
    [XmlElem.mk "BODY" none
       [XmlElem.mk "COLLECTION" none
          [XmlElem.mk "LEDGER" none
             [XmlElem.mk "NAME" (some "Cash") [],
              XmlElem.mk "OPENINGBALANCE" (some "100") []],
           XmlElem.mk "LEDGER" none
             [XmlElem.mk "NAME" (some "Bank") [],
              XmlElem.mk "OPENINGBALANCE" (some "-50") []],
           XmlElem.mk "LEDGER" none
             [XmlElem.mk "NAME" (some "Sales") []]]]]

/-- Whether the list begins with the five characters of the escaped amp
entity. -/
def startsAmpEntity : List Char → Bool
  | '&' :: 'a' :: 'm' :: 'p' :: ';' :: _ => true
  | _ => false

/-- The number of positions at which the escaped amp entity occurs.  The
entity cannot overlap itself, so this is also the plain occurrence count. -/
def countAmpEntity : List Char → Nat
  | [] => 0
  | c :: rest => (if startsAmpEntity (c :: rest) then 1 else 0) + countAmpEntity rest

/-! ## Helper lemmas about the cleaning pipeline -/

theorem scanRemove_nil (m : List Char → Option (List Char)) (n : Nat) :
    scanRemove m n [] = [] := by
  cases n with
  | zero => rfl
  | succ k => rfl

theorem head_scanRemove_of_none {m : List Char → Option (List Char)} {l : List Char}
    (h : m l = none) (n : Nat) : (scanRemove m n l).head? = l.head? := by
  cases n with
  | zero => rfl
  | succ k =>
    cases l with
    | nil => rfl
    | cons c rest => simp [scanRemove, h]

theorem scanRemove_eq_self {m : List Char → Option (List Char)} {p : Char → Bool}
    (hm : ∀ l2, (∀ c, c ∈ l2 → p c = true) → m l2 = none) :
    ∀ (n : Nat) (l : List Char), (∀ c, c ∈ l → p c = true) → scanRemove m n l = l := by
  intro n
  induction n with
  | zero => intro l _; rfl
  | succ k ih =>
    intro l hl
    cases l with
    | nil => rfl
    | cons c rest =>
      have hnone : m (c :: rest) = none := hm _ hl
      have hrest : ∀ d, d ∈ rest → p d = true := fun d hd => hl d (List.mem_cons_of_mem c hd)
      simp [scanRemove, hnone, ih rest hrest]

theorem mem_scanRemove {m : List Char → Option (List Char)}
    (hm : ∀ l2 t, m l2 = some t → ∀ c, c ∈ t → c ∈ l2) :
    ∀ (n : Nat) (l : List Char) (c : Char), c ∈ scanRemove m n l → c ∈ l := by
  intro n
  induction n with
  | zero => intro l c hc; exact hc
  | succ k ih =>
    intro l c hc
    cases l with
    | nil => rw [scanRemove_nil] at hc; exact hc
    | cons a rest =>
      cases hma : m (a :: rest) with
      | some tail =>
        rw [show scanRemove m (k + 1) (a :: rest) = scanRemove m k tail by simp [scanRemove, hma]] at hc
        exact hm _ _ hma c (ih tail c hc)
      | none =>
        rw [show scanRemove m (k + 1) (a :: rest) = a :: scanRemove m k rest by simp [scanRemove, hma]] at hc
        rcases List.mem_cons.mp hc with h1 | h2
        · exact h1 ▸ List.mem_cons_self a rest
        · exact List.mem_cons_of_mem a (ih rest c h2)

theorem mem_of_dropThroughQuote :
    ∀ {l t : List Char}, dropThroughQuote l = some t → ∀ c, c ∈ t → c ∈ l := by
  intro l
  induction l with
  | nil => intro t h; simp [dropThroughQuote] at h
  | cons a rest ih =>
    intro t h c hc
    by_cases ha : a == '"'
    · rw [show dropThroughQuote (a :: rest) = some rest by simp [dropThroughQuote, ha]] at h
      cases h
      exact List.mem_cons_of_mem a hc
    · rw [show dropThroughQuote (a :: rest) = dropThroughQuote rest by simp [dropThroughQuote, ha]] at h
      exact List.mem_cons_of_mem a (ih h c hc)

theorem quote_mem_of_dropThroughQuote :
    ∀ {l t : List Char}, dropThroughQuote l = some t → '"' ∈ l := by
  intro l
  induction l with
  | nil => intro t h; simp [dropThroughQuote] at h
  | cons a rest ih =>
    intro t h
    by_cases ha : a == '"'
    · have : a = '"' := by simpa using ha
      simp [this]
    · rw [show dropThroughQuote (a :: rest) = dropThroughQuote rest by simp [dropThroughQuote, ha]] at h
      exact List.mem_cons_of_mem a (ih h)

theorem matchXmlnsColonDecl_subset {l t : List Char} (h : matchXmlnsColonDecl l = some t) :
    ∀ c, c ∈ t → c ∈ l := by
  unfold matchXmlnsColonDecl at h
  split at h
  · rename_i rest
    split at h
    · rename_i rest3 heq
      intro c hc
      have h1 : c ∈ rest3 := mem_of_dropThroughQuote h c hc
      have h2 : c ∈ List.dropWhile (fun d => !(d == '=')) rest := by
        rw [heq]; simp [h1]
      have h3 : c ∈ rest := (List.dropWhile_sublist _).subset h2
      simp [h3]
    · exact absurd h (by simp)
  · exact absurd h (by simp)

theorem matchXmlnsColonDecl_colon {l t : List Char} (h : matchXmlnsColonDecl l = some t) :
    ':' ∈ l := by
  unfold matchXmlnsColonDecl at h
  split at h
  · simp
  · exact absurd h (by simp)

theorem matchXmlnsDecl_subset {l t : List Char} (h : matchXmlnsDecl l = some t) :
    ∀ c, c ∈ t → c ∈ l := by
  unfold matchXmlnsDecl at h
  split at h
  · intro c hc
    have h1 := mem_of_dropThroughQuote h c hc
    simp [h1]
  · exact absurd h (by simp)

theorem matchXmlnsDecl_quote {l t : List Char} (h : matchXmlnsDecl l = some t) :
    '"' ∈ l := by
  unfold matchXmlnsDecl at h
  split at h
  · simp
  · exact absurd h (by simp)

theorem matchLetterRunColon_some {l t : List Char} (h : matchLetterRunColon l = some t) :
    (l.takeWhile isAsciiLetter).isEmpty = false ∧ l.dropWhile isAsciiLetter = ':' :: t := by
  unfold matchLetterRunColon at h
  split at h
  · exact absurd h (by simp)
  · rename_i hne
    split at h
    · rename_i tail heq
      cases h
      exact ⟨by simpa using hne, heq⟩
    · exact absurd h (by simp)

theorem matchLetterRunColon_subset {l t : List Char} (h : matchLetterRunColon l = some t) :
    ∀ c, c ∈ t → c ∈ l := by
  have hd := (matchLetterRunColon_some h).2
  intro c hc
  have h1 : c ∈ l.dropWhile isAsciiLetter := by rw [hd]; simp [hc]
  exact (List.dropWhile_sublist _).subset h1

theorem matchLetterRunColon_colon {l t : List Char} (h : matchLetterRunColon l = some t) :
    ':' ∈ l := by
  have hd := (matchLetterRunColon_some h).2
  have h1 : ':' ∈ l.dropWhile isAsciiLetter := by rw [hd]; simp
  exact (List.dropWhile_sublist _).subset h1

theorem mem_replaceAmp :
    ∀ {l : List Char} {c : Char}, c ∈ replaceAmp l →
      c ∈ l ∨ c = '&' ∨ c = 'a' ∨ c = 'm' ∨ c = 'p' ∨ c = ';' := by
  intro l
  induction l with
  | nil => intro c hc; exact absurd hc (by simp [replaceAmp])
  | cons a rest ih =>
    intro c hc
    by_cases ha : a == '&'
    · rw [show replaceAmp (a :: rest) = '&' :: 'a' :: 'm' :: 'p' :: ';' :: replaceAmp rest
          by simp [replaceAmp, ha]] at hc
      simp only [List.mem_cons] at hc
      rcases hc with h | h | h | h | h | h
      · tauto
      · tauto
      · tauto
      · tauto
      · tauto
      · rcases ih h with h2 | h2
        · exact Or.inl (List.mem_cons_of_mem a h2)
        · exact Or.inr h2
    · rw [show replaceAmp (a :: rest) = a :: replaceAmp rest by simp [replaceAmp, ha]] at hc
      rcases List.mem_cons.mp hc with h | h
      · exact Or.inl (h ▸ List.mem_cons_self a rest)
      · rcases ih h with h2 | h2
        · exact Or.inl (List.mem_cons_of_mem a h2)
        · exact Or.inr h2

theorem matchLetterRunColon_build {l t : List Char}
    (h1 : (l.takeWhile isAsciiLetter).isEmpty = false)
    (h2 : l.dropWhile isAsciiLetter = ':' :: t) :
    matchLetterRunColon l = some t := by
  unfold matchLetterRunColon
  rw [h1, h2]
  rfl

theorem colon_not_letter : isAsciiLetter ':' = false := rfl

theorem hasLetterColon_scanRemove :
    ∀ (n : Nat) (l : List Char), l.length ≤ n →
      hasLetterColon (scanRemove matchLetterRunColon n l) = false := by
  intro n
  induction n with
  | zero =>
    intro l hl
    have h0 : l = [] := List.length_eq_zero.mp (Nat.le_zero.mp hl)
    rw [h0]
    rfl
  | succ k ih =>
    intro l hl
    cases l with
    | nil => rfl
    | cons c rest =>
      cases hm : matchLetterRunColon (c :: rest) with
      | some tail =>
        have hdest := matchLetterRunColon_some hm
        have hsplit := List.takeWhile_append_dropWhile isAsciiLetter (c :: rest)
        have hlen : ((c :: rest).takeWhile isAsciiLetter).length + (1 + tail.length)
            = rest.length + 1 := by
          have := congrArg List.length hsplit
          rw [List.length_append, hdest.2] at this
          simpa [Nat.add_comm, Nat.add_assoc, Nat.add_left_comm] using this
        have hne : ((c :: rest).takeWhile isAsciiLetter).length ≠ 0 := by
          intro h0
          rw [List.length_eq_zero.mp h0] at hdest
          exact absurd hdest.1 (by simp)
        have hcl : (c :: rest).length = rest.length + 1 := by simp
        rw [hcl] at hl
        have htail : tail.length ≤ k := by omega
        rw [show scanRemove matchLetterRunColon (k + 1) (c :: rest)
            = scanRemove matchLetterRunColon k tail by simp [scanRemove, hm]]
        exact ih tail htail
      | none =>
        have hrest : rest.length ≤ k := by
          have := hl
          simp only [List.length_cons] at this
          omega
        have hS := ih rest hrest
        rw [show scanRemove matchLetterRunColon (k + 1) (c :: rest)
            = c :: scanRemove matchLetterRunColon k rest by simp [scanRemove, hm]]
        cases hS2 : scanRemove matchLetterRunColon k rest with
        | nil => rfl
        | cons b t2 =>
          rw [hS2] at hS
          rw [show hasLetterColon (c :: b :: t2)
              = ((isAsciiLetter c && b == ':') || hasLetterColon (b :: t2)) from rfl]
          rw [hS, Bool.or_false]
          by_cases hc : isAsciiLetter c = true
          · have hmr : matchLetterRunColon rest = none := by
              cases hmr2 : matchLetterRunColon rest with
              | none => rfl
              | some t3 =>
                have hd := matchLetterRunColon_some hmr2
                have hbuild : matchLetterRunColon (c :: rest) = some t3 := by
                  apply matchLetterRunColon_build
                  · rw [List.takeWhile_cons_of_pos hc]
                    simp
                  · rw [List.dropWhile_cons_of_pos hc]
                    exact hd.2
                rw [hbuild] at hm
                exact absurd hm (by simp)
            have hb : (scanRemove matchLetterRunColon k rest).head? = rest.head? :=
              head_scanRemove_of_none hmr k
            rw [hS2] at hb
            cases rest with
            | nil =>
              rw [scanRemove_nil] at hS2
              exact absurd hS2 (by simp)
            | cons r t4 =>
              have hbr : b = r := by
                simpa using hb
              have hrc : ¬ (r = ':') := by
                intro hcol
                subst hcol
                have hbuild : matchLetterRunColon (c :: ':' :: t4) = some t4 := by
                  apply matchLetterRunColon_build
                  · rw [List.takeWhile_cons_of_pos hc]
                    simp
                  · rw [List.dropWhile_cons_of_pos hc,
                        List.dropWhile_cons_of_neg (by rw [colon_not_letter]; simp)]
                rw [hbuild] at hm
                exact absurd hm (by simp)
              simp [hbr, hrc]
          · simp only [Bool.not_eq_true] at hc
            simp [hc]

theorem matchXmlnsColonDecl_none_of_no_colon {l : List Char}
    (h : ∀ c, c ∈ l → (!(c == ':')) = true) : matchXmlnsColonDecl l = none := by
  cases hm : matchXmlnsColonDecl l with
  | none => rfl
  | some t =>
    have hc := h ':' (matchXmlnsColonDecl_colon hm)
    simp at hc

theorem matchLetterRunColon_none_of_no_colon {l : List Char}
    (h : ∀ c, c ∈ l → (!(c == ':')) = true) : matchLetterRunColon l = none := by
  cases hm : matchLetterRunColon l with
  | none => rfl
  | some t =>
    have hc := h ':' (matchLetterRunColon_colon hm)
    simp at hc

theorem matchXmlnsDecl_none_of_no_quote {l : List Char}
    (h : ∀ c, c ∈ l → (!(c == '"')) = true) : matchXmlnsDecl l = none := by
  cases hm : matchXmlnsDecl l with
  | none => rfl
  | some t =>
    have hc := h '"' (matchXmlnsDecl_quote hm)
    simp at hc

theorem startsAmpEntity_cons_ne {c : Char} {X : List Char} (hc : ¬ c = '&') :
    startsAmpEntity (c :: X) = false := by
  rw [startsAmpEntity.eq_def]
  split
  · rename_i heq
    injection heq with h1 _
    exact absurd h1 hc
  · rfl

theorem countAmpEntity_cons (c : Char) (X : List Char) :
    countAmpEntity (c :: X) = (if startsAmpEntity (c :: X) then 1 else 0) + countAmpEntity X :=
  rfl

theorem countAmpEntity_cons_ne {c : Char} (X : List Char) (hc : ¬ c = '&') :
    countAmpEntity (c :: X) = countAmpEntity X := by
  rw [countAmpEntity_cons, startsAmpEntity_cons_ne hc]
  simp

theorem countAmpEntity_replaceAmp (l : List Char) :
    countAmpEntity (replaceAmp l) = List.count '&' l := by
  induction l with
  | nil => rfl
  | cons c rest ih =>
    by_cases hc : c = '&'
    · subst hc
      rw [show replaceAmp ('&' :: rest) = '&' :: 'a' :: 'm' :: 'p' :: ';' :: replaceAmp rest
          by simp [replaceAmp]]
      rw [countAmpEntity_cons]
      rw [show startsAmpEntity ('&' :: 'a' :: 'm' :: 'p' :: ';' :: replaceAmp rest) = true from rfl]
      rw [countAmpEntity_cons_ne _ (by simp), countAmpEntity_cons_ne _ (by simp),
          countAmpEntity_cons_ne _ (by simp), countAmpEntity_cons_ne _ (by simp)]
      rw [ih, List.count_cons_self]
      simp [Nat.add_comm]
    · rw [show replaceAmp (c :: rest) = c :: replaceAmp rest by simp [replaceAmp, hc]]
      rw [countAmpEntity_cons_ne _ hc, ih]
      rw [List.count_cons]
      have hcc : (c == '&') = false := beq_eq_false_iff_ne.mpr hc
      rw [hcc]
      simp

theorem count_filter_keep (p : Char → Bool) (c : Char) (l : List Char) (h : p c = true) :
    List.count c (l.filter p) = List.count c l := by
  induction l with
  | nil => rfl
  | cons a t ih =>
    by_cases ha : p a = true
    · simp [List.filter_cons, ha, List.count_cons, ih]
    · simp only [List.filter_cons, Bool.not_eq_true] at *
      simp [ha, List.count_cons, ih]
      intro hac
      rw [hac] at ha
      rw [h] at ha
      simp at ha

theorem mem_stripCtrl_removeNulls {s : List Char} {c : Char}
    (h : c ∈ stripCtrl (removeNulls s)) : c ∈ s :=
  List.mem_of_mem_filter (List.mem_of_mem_filter h)

theorem mem_escaped_step {s : List Char} {c : Char}
    (h : c ∈ replaceAmp (stripCtrl (removeNulls s))) :
    c ∈ s ∨ c = '&' ∨ c = 'a' ∨ c = 'm' ∨ c = 'p' ∨ c = ';' := by
  rcases mem_replaceAmp h with h2 | h2
  · exact Or.inl (mem_stripCtrl_removeNulls h2)
  · exact Or.inr h2

theorem no_colon_escaped_step {s : List Char} (h1 : ':' ∉ s) :
    ∀ c, c ∈ replaceAmp (stripCtrl (removeNulls s)) → (!(c == ':')) = true := by
  intro c hc
  rcases mem_escaped_step hc with h | h | h | h | h | h
  · simp only [Bool.not_eq_eq_eq_not, Bool.not_true, beq_eq_false_iff_ne]
    intro he
    exact h1 (he ▸ h)
  all_goals subst h; rfl

theorem no_quote_escaped_step {s : List Char} (h2 : '"' ∉ s) :
    ∀ c, c ∈ replaceAmp (stripCtrl (removeNulls s)) → (!(c == '"')) = true := by
  intro c hc
  rcases mem_escaped_step hc with h | h | h | h | h | h
  · simp only [Bool.not_eq_eq_eq_not, Bool.not_true, beq_eq_false_iff_ne]
    intro he
    exact h2 (he ▸ h)
  all_goals subst h; rfl

theorem cleanChars_no_colon_quote (s : List Char) (h1 : ':' ∉ s) (h2 : '"' ∉ s) :
    cleanChars s = replaceAmp (stripCtrl (removeNulls s)) := by
  have hp1 := no_colon_escaped_step (s := s) h1
  have hq1 := no_quote_escaped_step (s := s) h2
  unfold cleanChars pySub
  rw [scanRemove_eq_self (fun l2 hl2 => matchXmlnsColonDecl_none_of_no_colon hl2) _ _ hp1]
  rw [scanRemove_eq_self (fun l2 hl2 => matchLetterRunColon_none_of_no_colon hl2) _ _ hp1]
  rw [scanRemove_eq_self (fun l2 hl2 => matchXmlnsDecl_none_of_no_quote hl2) _ _ hq1]

theorem strippedCtrl_cleanChars (s : List Char) :
    ∀ c, c ∈ cleanChars s → strippedCtrl c = false := by
  intro c hc
  unfold cleanChars pySub at hc
  have h5 := mem_scanRemove (fun l2 t ht => matchXmlnsDecl_subset ht) _ _ _ hc
  have h4 := mem_scanRemove (fun l2 t ht => matchLetterRunColon_subset ht) _ _ _ h5
  have h3 := mem_scanRemove (fun l2 t ht => matchXmlnsColonDecl_subset ht) _ _ _ h4
  rcases mem_replaceAmp h3 with h | h
  · have hf := (List.mem_filter.mp h).2
    simpa using hf
  · rcases h with h | h | h | h | h
    all_goals subst h; rfl

theorem hasLetterColon_cleanChars_no_quote (s : List Char) (h2 : '"' ∉ s) :
    hasLetterColon (cleanChars s) = false := by
  have hq3 := no_quote_escaped_step (s := s) h2
  unfold cleanChars pySub
  have hq4 : ∀ c, c ∈ scanRemove matchXmlnsColonDecl
      (replaceAmp (stripCtrl (removeNulls s))).length
      (replaceAmp (stripCtrl (removeNulls s))) → (!(c == '"')) = true := by
    intro c hc
    exact hq3 c (mem_scanRemove (fun l2 t ht => matchXmlnsColonDecl_subset ht) _ _ _ hc)
  have hq5 : ∀ c, c ∈ scanRemove matchLetterRunColon
      (scanRemove matchXmlnsColonDecl
        (replaceAmp (stripCtrl (removeNulls s))).length
        (replaceAmp (stripCtrl (removeNulls s)))).length
      (scanRemove matchXmlnsColonDecl
        (replaceAmp (stripCtrl (removeNulls s))).length
        (replaceAmp (stripCtrl (removeNulls s)))) → (!(c == '"')) = true := by
    intro c hc
    exact hq4 c (mem_scanRemove (fun l2 t ht => matchLetterRunColon_subset ht) _ _ _ hc)
  rw [scanRemove_eq_self (fun l2 hl2 => matchXmlnsDecl_none_of_no_quote hl2) _ _ hq5]
  exact hasLetterColon_scanRemove _ _ (Nat.le_refl _)

/-! ## Helper lemmas about the XML extractors -/

mutual

theorem tag_of_mem_iterTag (tg : String) (e : XmlElem) (x : XmlElem)
    (hx : x ∈ iterTag tg e) : XmlElem.tag x = tg := by
  cases e with
  | mk t tx cs =>
    rw [show iterTag tg (XmlElem.mk t tx cs)
        = (if t = tg then [XmlElem.mk t tx cs] else []) ++ iterTagList tg cs from rfl] at hx
    rcases List.mem_append.mp hx with h | h
    · by_cases ht : t = tg
      · rw [if_pos ht] at h
        have hxe : x = XmlElem.mk t tx cs := by simpa using h
        rw [hxe]
        exact ht
      · rw [if_neg ht] at h
        exact absurd h (by simp)
    · exact tag_of_mem_iterTagList tg cs x h

theorem tag_of_mem_iterTagList (tg : String) (l : List XmlElem) (x : XmlElem)
    (hx : x ∈ iterTagList tg l) : XmlElem.tag x = tg := by
  cases l with
  | nil => exact absurd hx (by simp [iterTagList])
  | cons e es =>
    rw [show iterTagList tg (e :: es) = iterTag tg e ++ iterTagList tg es from rfl] at hx
    rcases List.mem_append.mp hx with h | h
    · exact tag_of_mem_iterTag tg e x h
    · exact tag_of_mem_iterTagList tg es x h

end

theorem length_extractFromCollections (fields : List (String × String)) (root : XmlElem) :
    (extractFromCollections fields root).length
      = ((iterTag "COLLECTION" root).map (fun c => (XmlElem.children c).length)).sum := by
  unfold extractFromCollections
  simp [Function.comp_def]

theorem length_get_vouchers (root : XmlElem) :
    (get_vouchers root).length = (iterTag "VOUCHER" root).length := by
  unfold get_vouchers
  simp

theorem length_get_voucher_entries (root : XmlElem) :
    (get_voucher_entries root).length
      = ((iterTag "VOUCHER" root).map (fun v => (iterTag "LEDGERENTRY" v).length)).sum := by
  unfold get_voucher_entries
  simp [Function.comp_def]

/-! ## Helper lemmas about insert_data and the preparation loop -/

theorem insertBatches_spec {σ : Type} (post : σ → List PyRecord → σ × Nat) :
    ∀ (bs : List (List PyRecord)) (s : σ),
      (insertBatches post s bs).1 = (runStatuses post s bs).all is2xx ∧
      (insertBatches post s bs).2.1
        = bs.take (((runStatuses post s bs).takeWhile is2xx).length + 1) := by
  intro bs
  induction bs with
  | nil => intro s; exact ⟨rfl, rfl⟩
  | cons b rest ih =>
    intro s
    by_cases hc : is2xx (post s b).2 = true
    · have h1 := (ih (post s b).1).1
      have h2 := (ih (post s b).1).2
      constructor
      · simp only [insertBatches, runStatuses, hc, if_true, List.all_cons]
        rw [h1]
        simp [hc]
      · simp only [insertBatches, runStatuses, hc, if_true]
        rw [List.takeWhile_cons, hc]
        simp [h2]
    · have hcf : is2xx (post s b).2 = false := by
        simpa using hc
      constructor
      · simp only [insertBatches, runStatuses, hcf, List.all_cons]
        simp
      · simp only [insertBatches, runStatuses, hcf]
        rw [List.takeWhile_cons, hcf]
        simp

theorem chunks100_flatten :
    ∀ (n : Nat) (l : List PyRecord), l.length ≤ n → (chunks100 l).flatten = l := by
  intro n
  induction n with
  | zero =>
    intro l hl
    rw [List.length_eq_zero.mp (Nat.le_zero.mp hl)]
    simp [chunks100]
  | succ k ih =>
    intro l hl
    cases l with
    | nil => simp [chunks100]
    | cons x xs =>
      rw [show chunks100 (x :: xs)
          = ((x :: xs).take batchSize) :: chunks100 ((x :: xs).drop batchSize)
          by rw [chunks100]]
      rw [List.flatten_cons]
      have hd : ((x :: xs).drop batchSize).length ≤ k := by
        simp only [List.length_drop, List.length_cons, batchSize] at *
        omega
      rw [ih _ hd]
      exact List.take_append_drop batchSize (x :: xs)

theorem chunks100_mem :
    ∀ (n : Nat) (l : List PyRecord) (b : List PyRecord), l.length ≤ n →
      b ∈ chunks100 l → b.length ≤ batchSize ∧ ¬ b = [] := by
  intro n
  induction n with
  | zero =>
    intro l b hl hb
    rw [List.length_eq_zero.mp (Nat.le_zero.mp hl)] at hb
    rw [show chunks100 [] = [] by simp [chunks100]] at hb
    exact absurd hb (by simp)
  | succ k ih =>
    intro l b hl hb
    cases l with
    | nil =>
      rw [show chunks100 [] = [] by simp [chunks100]] at hb
      exact absurd hb (by simp)
    | cons x xs =>
      rw [show chunks100 (x :: xs)
          = ((x :: xs).take batchSize) :: chunks100 ((x :: xs).drop batchSize)
          by rw [chunks100]] at hb
      rcases List.mem_cons.mp hb with h | h
      · constructor
        · rw [h, List.length_take]
          exact min_le_left _ _
        · rw [h]
          rw [show batchSize = 99 + 1 from rfl, List.take_succ_cons]
          exact List.cons_ne_nil _ _
      · have hd : ((x :: xs).drop batchSize).length ≤ k := by
          simp only [List.length_drop, List.length_cons, batchSize] at *
          omega
        exact ih _ b hd h

theorem getD_append_left {l t : List PyRecord} {n : Nat} (h : n < l.length) (d : PyRecord) :
    (l ++ t).getD n d = l.getD n d := by
  unfold List.getD
  rw [List.get?_eq_getElem?, List.get?_eq_getElem?, List.getElem?_append_left h]

theorem prepareLoop_spec :
    ∀ (addrs : List Nat) (heap : List PyRecord),
      (∀ a, a ∈ addrs → a < heap.length) →
      (prepareLoop heap addrs).1
          = heap ++ addrs.map (fun a => pySetItem (heap.getD a []) "user_id" uidVal)
        ∧ (prepareLoop heap addrs).2
          = (List.range addrs.length).map (fun k => heap.length + k) := by
  intro addrs
  induction addrs with
  | nil => intro heap _; exact ⟨by simp [prepareLoop], by simp [prepareLoop]⟩
  | cons a as ih =>
    intro heap h
    have ha : a < heap.length := h a (List.mem_cons_self a as)
    have has : ∀ b, b ∈ as
        → b < (heap ++ [pySetItem (heap.getD a []) "user_id" uidVal]).length := by
      intro b hb
      have := h b (List.mem_cons_of_mem a hb)
      simp only [List.length_append, List.length_cons, List.length_nil]
      omega
    have hih := ih (heap ++ [pySetItem (heap.getD a []) "user_id" uidVal]) has
    constructor
    · rw [show (prepareLoop heap (a :: as)).1
          = (prepareLoop (heap ++ [pySetItem (heap.getD a []) "user_id" uidVal]) as).1
          from rfl]
      rw [hih.1]
      rw [List.map_congr_left (fun b hb => by
        rw [getD_append_left (h b (List.mem_cons_of_mem a hb))])]
      rw [List.append_assoc]
      rfl
    · rw [show (prepareLoop heap (a :: as)).2
          = heap.length
            :: (prepareLoop (heap ++ [pySetItem (heap.getD a []) "user_id" uidVal]) as).2
          from rfl]
      rw [hih.2]
      rw [show (a :: as).length = as.length + 1 from rfl]
      rw [List.range_succ_eq_map, List.map_cons, List.map_map]
      congr 1
      exact List.map_congr_left (fun k _ => by
        simp only [Function.comp_apply, List.length_append, List.length_cons, List.length_nil]
        omega)

theorem pyGet_pySetItem (r : PyRecord) (k : String) (v : PyValue) :
    pyGet (pySetItem r k v) k = some v := by
  induction r with
  | nil => simp [pySetItem, pyGet]
  | cons kv rest ih =>
    by_cases h : kv.1 == k
    · simp [pySetItem, pyGet, h]
    · simp [pySetItem, pyGet, h, ih]

/-! ## Helper lemmas about the synchronization layer -/

theorem sync_writes (fetch : String → List PyRecord) (syncOne : String → List PyRecord → Bool) :
    ∀ mapping : List (String × String),
      (sync_data_to_supabase fetch syncOne mapping).2.2
        = (mapping.filter
            (fun p => knownTypes.contains p.1 && !((fetch p.1).isEmpty))).map
          (fun p => p.2) := by
  intro mapping
  induction mapping with
  | nil => rfl
  | cons hd rest ih =>
    cases hd with
    | mk t tb =>
      by_cases hk : t ∈ knownTypes
      · by_cases he : (fetch t).isEmpty = true
        · simp [sync_data_to_supabase, hk, he, List.filter_cons, ih]
        · simp only [Bool.not_eq_true] at he
          simp [sync_data_to_supabase, hk, he, List.filter_cons, ih]
      · simp [sync_data_to_supabase, hk, List.filter_cons, ih]

theorem sync_flag (fetch : String → List PyRecord) (syncOne : String → List PyRecord → Bool) :
    ∀ mapping : List (String × String),
      (sync_data_to_supabase fetch syncOne mapping).1
        = (mapping.filter
            (fun p => knownTypes.contains p.1 && !((fetch p.1).isEmpty))).all
          (fun p => syncOne p.2 (fetch p.1)) := by
  intro mapping
  induction mapping with
  | nil => rfl
  | cons hd rest ih =>
    cases hd with
    | mk t tb =>
      by_cases hk : t ∈ knownTypes
      · by_cases he : (fetch t).isEmpty = true
        · simp [sync_data_to_supabase, hk, he, List.filter_cons, ih]
        · simp only [Bool.not_eq_true] at he
          simp [sync_data_to_supabase, hk, he, List.filter_cons, List.all_cons, ih]
      · simp [sync_data_to_supabase, hk, List.filter_cons, ih]

theorem sync_nodata (fetch : String → List PyRecord) (syncOne : String → List PyRecord → Bool) :
    ∀ (mapping : List (String × String)) (t tbl : String),
      (t, tbl) ∈ mapping → t ∈ knownTypes → fetch t = [] →
      (t, "no_data", 0) ∈ (sync_data_to_supabase fetch syncOne mapping).2.1 := by
  intro mapping
  induction mapping with
  | nil => intro t tbl hmem; exact absurd hmem (by simp)
  | cons hd rest ih =>
    intro t tbl hmem hk hf
    cases hd with
    | mk t2 tb2 =>
      rcases List.mem_cons.mp hmem with h | h
      · cases h
        simp [sync_data_to_supabase, hk, hf]
      · by_cases hk2 : t2 ∈ knownTypes
        · have hkb : knownTypes.contains t2 = true := by simpa using hk2
          by_cases he2 : (fetch t2).isEmpty = true
          · simp only [sync_data_to_supabase, hkb, he2, if_true]
            exact List.mem_cons_of_mem _ (ih t tbl h hk hf)
          · simp only [Bool.not_eq_true] at he2
            simp only [sync_data_to_supabase, hkb, if_true, he2, Bool.false_eq_true, if_false]
            exact List.mem_cons_of_mem _ (ih t tbl h hk hf)
        · have hkb : knownTypes.contains t2 = false := by simpa using hk2
          simp only [sync_data_to_supabase, hkb, Bool.false_eq_true, if_false]
          exact ih t tbl h hk hf

/-! ## Claim C1: ampersand escaping and non-idempotence -/

/-- C1 counterexample: the claim that for every input string
clean_xml_response replaces each literal ampersand with the escaped amp
entity in its output is false.  The input xmlns="&" contains one
ampersand, yet the cleaned output is empty: the xmlns declaration
stripping runs after the escaping step and deletes the escaped ampersand
wholesale, so no escaped entity for it survives in the output. -/
theorem C1_counterexample :
    List.count '&' (("xmlns=\"&\"").data) = 1 ∧
    cleanChars (("xmlns=\"&\"").data) = [] ∧
    ¬ (countAmpEntity (cleanChars (("xmlns=\"&\"").data))
        = List.count '&' (("xmlns=\"&\"").data)) := by
  refine ⟨by decide, by decide, by decide⟩

/-- C1 (amended): on inputs containing no colon and no double quote the
namespace stripping steps are inert, so clean_xml_response is exactly
control character removal followed by the replacement of each literal
ampersand with the escaped amp entity, and the number of escaped entities
in the output equals the number of ampersands in the input; on other
inputs the later regex steps can destroy this correspondence (see the
counterexample).  The function is not idempotent: cleaning the one
character string with an ampersand yields the escaped entity, and cleaning
it again double escapes. -/
theorem C1_amended :
    (∀ s : List Char, ':' ∉ s → '"' ∉ s →
        cleanChars s = replaceAmp (stripCtrl (removeNulls s)) ∧
        countAmpEntity (cleanChars s) = List.count '&' s) ∧
    clean_xml_response ("&") = "&amp;" ∧
    clean_xml_response ("&amp;") = "&amp;amp;" ∧
    ¬ (clean_xml_response (clean_xml_response ("&")) = clean_xml_response ("&")) := by
  refine ⟨?_, by decide, by decide, by decide⟩
  intro s h1 h2
  have he := cleanChars_no_colon_quote s h1 h2
  refine ⟨he, ?_⟩
  rw [he, countAmpEntity_replaceAmp]
  unfold stripCtrl removeNulls
  rw [count_filter_keep _ _ _ (by decide), count_filter_keep _ _ _ (by decide)]

/-- C1 witness: the amended statement applied to a concrete colon free and
quote free input with one ampersand. -/
theorem C1_witness :
    cleanChars (("<A>x&y</A>").data)
        = replaceAmp (stripCtrl (removeNulls (("<A>x&y</A>").data))) ∧
    countAmpEntity (cleanChars (("<A>x&y</A>").data))
        = List.count '&' (("<A>x&y</A>").data) :=
  C1_amended.1 (("<A>x&y</A>").data) (by decide) (by decide)

/-! ## Claim C2: traversal of the extractors -/

/-- C2 counterexample: the claim that every extractor walks all descendant
elements matching the target tag and produces one record per matching
element, and none for other tags, is false for the collection based
extractors.  In a document whose COLLECTION holds a single element of
unrelated tag FOO, get_companies produces one record although no COMPANY
element exists anywhere in the document. -/
theorem C2_counterexample :
    (get_companies docFooChild).length = 1 ∧
    (iterTag ("COMPANY") docFooChild).length = 0 := by
  refine ⟨by decide, by decide⟩

/-- C2 (amended): get_vouchers is tag based and depth unaware, producing
exactly one record per VOUCHER element found at any depth, and
get_voucher_entries one record per LEDGERENTRY found at any depth inside
each VOUCHER; every element returned by the tag traversal carries the
target tag.  The company, division, ledger and group extractors instead
walk all COLLECTION elements regardless of depth and emit one record per
direct child of each COLLECTION, irrespective of the child's tag. -/
theorem C2_amended :
    (∀ root, (get_companies root).length
        = ((iterTag ("COLLECTION") root).map (fun c => (XmlElem.children c).length)).sum) ∧
    (∀ root, (get_divisions root).length
        = ((iterTag ("COLLECTION") root).map (fun c => (XmlElem.children c).length)).sum) ∧
    (∀ root, (get_ledgers root).length
        = ((iterTag ("COLLECTION") root).map (fun c => (XmlElem.children c).length)).sum) ∧
    (∀ root, (get_groups root).length
        = ((iterTag ("COLLECTION") root).map (fun c => (XmlElem.children c).length)).sum) ∧
    (∀ root, (get_vouchers root).length = (iterTag ("VOUCHER") root).length) ∧
    (∀ root, (get_voucher_entries root).length
        = ((iterTag ("VOUCHER") root).map (fun v => (iterTag ("LEDGERENTRY") v).length)).sum) ∧
    (∀ (tg : String) (e x : XmlElem), x ∈ iterTag tg e → XmlElem.tag x = tg) := by
  refine ⟨?_, ?_, ?_, ?_, length_get_vouchers, length_get_voucher_entries, tag_of_mem_iterTag⟩
  · intro root; exact length_extractFromCollections companyFields root
  · intro root; exact length_extractFromCollections divisionFields root
  · intro root; exact length_extractFromCollections ledgerFields root
  · intro root; exact length_extractFromCollections groupFields root

/-- C2 witness: the tag traversal statement applied to a concrete document
and element. -/
theorem C2_witness :
    XmlElem.tag (XmlElem.mk ("COLLECTION") none [XmlElem.mk ("FOO") none []]) = "COLLECTION" :=
  C2_amended.2.2.2.2.2.2 ("COLLECTION") docFooChild
    (XmlElem.mk ("COLLECTION") none [XmlElem.mk ("FOO") none []])
    (by rw [show iterTag ("COLLECTION") docFooChild
          = [XmlElem.mk ("COLLECTION") none [XmlElem.mk ("FOO") none []]] from rfl]
        exact List.mem_cons_self _ _)

/-! ## Claim C3: one record per matching element with findtext fields -/

/-- C3 counterexample: the claim that a document with three LEDGER
elements each containing NAME and OPENINGBALANCE yields exactly three
records is false: when those LEDGER elements are not direct children of a
COLLECTION element, get_ledgers returns no record at all. -/
theorem C3_counterexample :
    (iterTag ("LEDGER") docFreeLedgers).length = 3 ∧
    ¬ ((get_ledgers docFreeLedgers).length = 3) := by
  refine ⟨by decide, by decide⟩

/-- C3 (amended): get_ledgers yields exactly one flat record per direct
child of each COLLECTION element found at any depth; each listed field of
a record is the findtext value of the child, the text of its like named
first sub element or null when that sub element is absent.  A document
with no COLLECTION element yields the empty list without error, and the
standard document whose COLLECTION holds three LEDGER children yields
exactly the three expected records, with a null OpeningBalance where the
child is missing. -/
theorem C3_amended :
    (∀ root, iterTag ("COLLECTION") root = [] → get_ledgers root = []) ∧
    (∀ root, (get_ledgers root).length
        = ((iterTag ("COLLECTION") root).map (fun c => (XmlElem.children c).length)).sum) ∧
    get_ledgers docThreeLedgers
      = [[("Name", some "Cash"), ("GUID", none), ("Parent", none),
          ("OpeningBalance", some "100"), ("ClosingBalance", none)],
         [("Name", some "Bank"), ("GUID", none), ("Parent", none),
          ("OpeningBalance", some "-50"), ("ClosingBalance", none)],
         [("Name", some "Sales"), ("GUID", none), ("Parent", none),
          ("OpeningBalance", none), ("ClosingBalance", none)]] := by
  refine ⟨?_, ?_, by decide⟩
  · intro root h
    unfold get_ledgers extractFromCollections
    rw [h]
    rfl
  · intro root
    exact length_extractFromCollections ledgerFields root

/-- C3 witness: the empty document statement applied to a document with no
COLLECTION element. -/
theorem C3_witness : get_ledgers docFreeLedgers = [] :=
  C3_amended.1 docFreeLedgers rfl

/-! ## Claim C4: schema inference from the first record -/

theorem infer_eq_claim (isoOk : String → Bool) (v : PyValue) :
    infer_data_type isoOk v = claimInferType isoOk v := by
  cases v <;> rfl

theorem replaceTrailingZ_cons_cons (c r : Char) (rs : List Char) :
    replaceTrailingZChars (c :: r :: rs) = c :: replaceTrailingZChars (r :: rs) := by
  unfold replaceTrailingZChars
  rw [show (c :: r :: rs).getLast? = (r :: rs).getLast? from List.getLast?_cons_cons]
  by_cases hl : ((r :: rs).getLast? == some 'Z') = true
  · rw [if_pos hl, if_pos hl]
    rw [show (c :: r :: rs).dropLast = c :: (r :: rs).dropLast by simp [List.dropLast_cons₂]]
    rfl
  · rw [if_neg hl, if_neg hl]

theorem replaceZ_eq_trailingZ :
    ∀ l : List Char, 'Z' ∉ l.dropLast → replaceZChars l = replaceTrailingZChars l := by
  intro l
  induction l with
  | nil => intro _; rfl
  | cons c rest ih =>
    intro h
    cases rest with
    | nil =>
      by_cases hz : c = 'Z'
      · subst hz
        rfl
      · have hzb : (c == 'Z') = false := beq_eq_false_iff_ne.mpr hz
        rw [show replaceZChars [c] = [c] by simp [replaceZChars, hzb]]
        unfold replaceTrailingZChars
        rw [show List.getLast? [c] = some c by simp]
        rw [if_neg (by simpa using fun he => hz he)]
    | cons r rs =>
      rw [show (c :: r :: rs).dropLast = c :: (r :: rs).dropLast
          by simp [List.dropLast_cons₂]] at h
      simp only [List.mem_cons, not_or] at h
      have hc : ¬ c = 'Z' := fun he => h.1 he.symm
      have hcb : (c == 'Z') = false := beq_eq_false_iff_ne.mpr hc
      rw [show replaceZChars (c :: r :: rs) = c :: replaceZChars (r :: rs)
          by simp [replaceZChars, hcb]]
      rw [replaceTrailingZ_cons_cons]
      rw [ih h.2]

/-- C4 counterexample: the claim classifies a string as a timestamp
exactly when it parses after replacing a trailing Z, but the source
replaces every Z.  The string 2024-01-01T00:00Z:00 has no trailing Z, so
under the claim's wording it stays unchanged and is classified TEXT by any
parser rejecting it; the source turns it into 2024-01-01T00:00+00:00:00,
a valid ISO datetime with an offset carrying seconds, and classifies it
TIMESTAMP under a parser accepting that form, as the real one does. -/
theorem C4_counterexample :
    infer_data_type (fun s => s == ("2024-01-01T00:00+00:00:00"))
        (PyValue.pyStr ("2024-01-01T00:00Z:00")) = "TIMESTAMP WITH TIME ZONE" ∧
    claimTrailingInferType (fun s => s == ("2024-01-01T00:00+00:00:00"))
        (PyValue.pyStr ("2024-01-01T00:00Z:00")) = "TEXT" ∧
    ¬ (infer_data_type (fun s => s == ("2024-01-01T00:00+00:00:00"))
          (PyValue.pyStr ("2024-01-01T00:00Z:00"))
        = claimTrailingInferType (fun s => s == ("2024-01-01T00:00+00:00:00"))
          (PyValue.pyStr ("2024-01-01T00:00Z:00"))) := by
  refine ⟨by decide, by decide, by decide⟩

/-- C4 (amended): schema inference over a non empty record list produces
exactly one column per field of the first record, depends on the first
record only, and classifies each value by the claimed mapping with the
source's Z handling: null, boolean, integer, float, string with the ISO
datetime test after replacing every Z by the UTC offset, and list or dict
to JSONB; the source's replacement coincides with the claim's trailing Z
wording exactly on strings with no Z before the last character; in
particular the list whose first record maps a to 1 and whose second record
maps a to an ISO datetime string infers column a as INTEGER, for every
behaviour of the external datetime parser. -/
theorem C4_schema_inference :
    (∀ (isoOk : String → Bool) (r : PyRecord) (rest1 rest2 : List PyRecord),
        analyze_data_structure isoOk (r :: rest1) = analyze_data_structure isoOk (r :: rest2)) ∧
    (∀ (isoOk : String → Bool) (r : PyRecord) (rest : List PyRecord),
        analyze_data_structure isoOk (r :: rest)
          = r.map (fun kv => InferredColumn.mk kv.1 (claimInferType isoOk kv.2) true)) ∧
    (∀ isoOk : String → Bool,
        analyze_data_structure isoOk
            [[("a", PyValue.pyInt 1)], [("a", PyValue.pyStr ("2024-01-01T00:00:00Z"))]]
          = [InferredColumn.mk ("a") ("INTEGER") true]) ∧
    (∀ l : List Char, 'Z' ∉ l.dropLast → replaceZChars l = replaceTrailingZChars l) := by
  refine ⟨fun _ _ _ _ => rfl, ?_, fun _ => rfl, replaceZ_eq_trailingZ⟩
  intro isoOk r rest
  unfold analyze_data_structure
  exact List.map_congr_left (fun kv _ => by rw [infer_eq_claim])

/-- C4 witness: the coincidence of the source's replacement with the
claim's trailing Z wording applied to a string whose only Z trails. -/
theorem C4_witness :
    replaceZChars (("2024-01-01T00:00:00Z").data)
      = replaceTrailingZChars (("2024-01-01T00:00:00Z").data) :=
  C4_schema_inference.2.2.2 (("2024-01-01T00:00:00Z").data) (by decide)

/-! ## Claim C5: batched insertion with abort on first failure -/

/-- C5: insert_data on an empty record list succeeds with no request sent;
on any record list it partitions the prepared records into consecutive
order preserving batches of at most 100 records each (their concatenation
is the prepared list); the call succeeds exactly when every batch of the
full run receives an accepted status, and the batches actually transmitted
are the prefix up to and including the first batch whose status is not
accepted, with no later batch sent and no batch retracted. -/
theorem C5_insert_batching {σ : Type} :
    (∀ (post : σ → List PyRecord → σ × Nat) (s : σ),
        insert_data post s [] = (true, [], s)) ∧
    (∀ (post : σ → List PyRecord → σ × Nat) (s : σ) (data : List PyRecord),
        (insert_data post s data).1
            = (runStatuses post s (chunks100 (prepareData data))).all is2xx ∧
        (insert_data post s data).2.1
            = (chunks100 (prepareData data)).take
                (((runStatuses post s (chunks100 (prepareData data))).takeWhile is2xx).length + 1) ∧
        (chunks100 (prepareData data)).flatten = prepareData data ∧
        (chunks100 (prepareData data)).all
          (fun b => Nat.ble b.length batchSize && !(b.isEmpty)) = true) := by
  constructor
  · intro post s
    rfl
  · intro post s data
    have hfl : (chunks100 (prepareData data)).flatten = prepareData data :=
      chunks100_flatten (prepareData data).length _ (Nat.le_refl _)
    have hall : (chunks100 (prepareData data)).all
        (fun b => Nat.ble b.length batchSize && !(b.isEmpty)) = true := by
      rw [List.all_eq_true]
      intro b hb
      have hm := chunks100_mem (prepareData data).length _ b (Nat.le_refl _) hb
      have h1 : Nat.ble b.length batchSize = true := Nat.ble_eq_true_of_le hm.1
      have h2 : b.isEmpty = false := by
        cases b with
        | nil => exact absurd rfl hm.2
        | cons x xs => rfl
      rw [h1, h2]
      rfl
    by_cases hd : data.isEmpty = true
    · have hdn : data = [] := by
        cases data with
        | nil => rfl
        | cons x xs => exact absurd hd (by simp)
      subst hdn
      rw [show chunks100 (prepareData ([] : List PyRecord)) = []
          by simp [prepareData, chunks100]]
      exact ⟨rfl, rfl, rfl, rfl⟩
    · have hspec := insertBatches_spec post (chunks100 (prepareData data)) s
      rw [show insert_data post s data
          = insertBatches post s (chunks100 (prepareData data))
          by simp [insert_data, hd]]
      exact ⟨hspec.1, hspec.2, hfl, hall⟩

/-! ## Claim C6: control character removal -/

/-- C6: for every input, the text returned by clean_xml_response contains
no character of the stripped control ranges 00-08, 0B, 0C, 0E-1F, 7F; the
removal predicate is false on tab, newline and carriage return, and the
control character removal step preserves every occurrence of those three
characters. -/
theorem C6_control_chars :
    (∀ s : List Char, (cleanChars s).all (fun c => !(strippedCtrl c)) = true) ∧
    strippedCtrl '\t' = false ∧ strippedCtrl '\n' = false ∧ strippedCtrl '\r' = false ∧
    (∀ l : List Char,
        List.count '\t' (stripCtrl l) = List.count '\t' l ∧
        List.count '\n' (stripCtrl l) = List.count '\n' l ∧
        List.count '\r' (stripCtrl l) = List.count '\r' l) := by
  refine ⟨?_, rfl, rfl, rfl, ?_⟩
  · intro s
    rw [List.all_eq_true]
    intro c hc
    rw [strippedCtrl_cleanChars s c hc]
    rfl
  · intro l
    unfold stripCtrl
    exact ⟨count_filter_keep _ _ _ (by decide), count_filter_keep _ _ _ (by decide),
      count_filter_keep _ _ _ (by decide)⟩

/-! ## Claim C7: safe_parse_xml result and diagnostics -/

/-- C7: safe_parse_xml returns the tree the external parser produces on
the cleaned input, with no log lines, when parsing succeeds; when parsing
the cleaned text fails it returns that same parse error and logs the error
message together with the first 500 characters of the original uncleaned
input, and it never returns a tree on a parse failure. -/
theorem C7_safe_parse {ε : Type} :
    ∀ (fromstring : String → Except ε XmlElem) (errMsg : ε → String) (xmlText : String),
      (∀ root, fromstring (clean_xml_response xmlText) = Except.ok root →
          safe_parse_xml fromstring errMsg xmlText = (Except.ok root, [])) ∧
      (∀ e, fromstring (clean_xml_response xmlText) = Except.error e →
          safe_parse_xml fromstring errMsg xmlText
            = (Except.error e,
               ["XML Parse Error: " ++ errMsg e,
                "XML Content (first 500 chars): " ++ xmlText.take 500])) := by
  intro fromstring errMsg xmlText
  constructor
  · intro root h
    unfold safe_parse_xml
    rw [h]
  · intro e h
    unfold safe_parse_xml
    rw [h]

/-- C7 witness: the failure branch applied to a concrete always failing
parser, showing the re-raised error and the log of the original text. -/
theorem C7_witness :
    safe_parse_xml (fun _ => Except.error 7) (fun _ => "boom") ("<BAD")
      = (Except.error 7,
         ["XML Parse Error: " ++ "boom",
          "XML Content (first 500 chars): " ++ ("<BAD").take 500]) :=
  (C7_safe_parse (fun _ => Except.error 7) (fun _ => "boom") ("<BAD")).2 7 rfl

/-! ## Claim C8: a zero record entity is success, not an error -/

/-- C8: in sync_data_to_supabase an entity type whose extraction yields no
records is recorded with status no_data and count 0, destination writes
are attempted exactly for the known entity types whose extraction is non
empty, and the overall flag is the conjunction of the per write outcomes
of those non empty entities alone, so an empty entity never marks the run
failed; in sync_tally_data of the Supabase manager a table with an empty
record list is skipped entirely, leaving both flag and operation
transcript exactly those of the remaining tables. -/
theorem C8_empty_entity :
    (∀ (fetch : String → List PyRecord) (syncOne : String → List PyRecord → Bool)
        (mapping : List (String × String)) (t tbl : String),
        (t, tbl) ∈ mapping → t ∈ knownTypes → fetch t = [] →
        (t, "no_data", 0) ∈ (sync_data_to_supabase fetch syncOne mapping).2.1) ∧
    (∀ (fetch : String → List PyRecord) (syncOne : String → List PyRecord → Bool)
        (mapping : List (String × String)),
        (sync_data_to_supabase fetch syncOne mapping).2.2
          = (mapping.filter
              (fun p => knownTypes.contains p.1 && !((fetch p.1).isEmpty))).map
            (fun p => p.2)) ∧
    (∀ (fetch : String → List PyRecord) (syncOne : String → List PyRecord → Bool)
        (mapping : List (String × String)),
        (sync_data_to_supabase fetch syncOne mapping).1
          = (mapping.filter
              (fun p => knownTypes.contains p.1 && !((fetch p.1).isEmpty))).all
            (fun p => syncOne p.2 (fetch p.1))) ∧
    (∀ (ensureOk : String → List PyRecord → Bool) (clearOk : String → Bool)
        (insertOk : String → List PyRecord → Bool) (tbl : String)
        (rest : List (String × List PyRecord)),
        sync_tally_data ensureOk clearOk insertOk ((tbl, []) :: rest)
          = sync_tally_data ensureOk clearOk insertOk rest) := by
  refine ⟨?_, ?_, ?_, ?_⟩
  · intro fetch syncOne mapping t tbl hmem hk hf
    exact sync_nodata fetch syncOne mapping t tbl hmem hk hf
  · intro fetch syncOne mapping
    exact sync_writes fetch syncOne mapping
  · intro fetch syncOne mapping
    exact sync_flag fetch syncOne mapping
  · intro ensureOk clearOk insertOk tbl rest
    rfl

/-- C8 witness: a mapping with a single known entity type whose extraction
is empty records a no_data result for it. -/
theorem C8_witness :
    ("ledgers", "no_data", 0)
      ∈ (sync_data_to_supabase (fun _ => []) (fun _ _ => true)
          [("ledgers", "tally_ledgers")]).2.1 :=
  C8_empty_entity.1 (fun _ => []) (fun _ _ => true) [("ledgers", "tally_ledgers")]
    ("ledgers") ("tally_ledgers") (by simp) (by decide) rfl

/-! ## Claim C9: user_id is added on copies, originals untouched -/

/-- C9: the record preparation of insert_data allocates a fresh copy of
every input record, sets user_id on the copy to the fixed constant
faa3bf60-717e-4dd8-8159-e9dc1fe9b8d0, and transmits the copies: after the
loop the heap extends the original one, so every original record object is
unchanged at its address, the prepared addresses are exactly the freshly
allocated ones, and looking up user_id in any prepared record yields the
fixed constant. -/
theorem C9_user_id_copy :
    (∀ (heap : List PyRecord) (addrs : List Nat),
        (∀ a, a ∈ addrs → a < heap.length) →
        (prepareLoop heap addrs).1
            = heap ++ addrs.map (fun a => pySetItem (heap.getD a []) ("user_id") uidVal)
          ∧ (prepareLoop heap addrs).2
            = (List.range addrs.length).map (fun k => heap.length + k)) ∧
    (∀ (heap : List PyRecord) (addrs : List Nat),
        (∀ a, a ∈ addrs → a < heap.length) →
        ∀ i, i < heap.length →
          ((prepareLoop heap addrs).1).getD i [] = heap.getD i []) ∧
    (∀ r : PyRecord, pyGet (pySetItem r ("user_id") uidVal) ("user_id") = some uidVal) := by
  refine ⟨?_, ?_, ?_⟩
  · intro heap addrs h
    exact prepareLoop_spec addrs heap h
  · intro heap addrs h i hi
    rw [(prepareLoop_spec addrs heap h).1]
    exact getD_append_left hi []
  · intro r
    exact pyGet_pySetItem r _ uidVal

/-- C9 witness: the preparation loop applied to a one record heap: the
original record object is kept unchanged and one fresh updated copy is
allocated after it. -/
theorem C9_witness :
    (prepareLoop [[("Name", PyValue.pyStr ("Acme"))]] [0]).1
        = [[("Name", PyValue.pyStr ("Acme"))]]
          ++ ([0] : List Nat).map
            (fun a => pySetItem (([[("Name", PyValue.pyStr ("Acme"))]] : List PyRecord).getD a [])
              ("user_id") uidVal)
      ∧ (prepareLoop [[("Name", PyValue.pyStr ("Acme"))]] [0]).2
        = (List.range ([0] : List Nat).length).map
            (fun k => ([[("Name", PyValue.pyStr ("Acme"))]] : List PyRecord).length + k) :=
  C9_user_id_copy.1 [[("Name", PyValue.pyStr ("Acme"))]] [0]
    (by intro a ha; simp at ha; simp [ha])

/-! ## Claim C10: deletion of letter runs before a colon -/

/-- C10 counterexample: the claim that clean_xml_response deletes every
maximal ASCII letter run immediately followed by a colon, wherever it
occurs, entails that the cleaned text never contains a letter immediately
followed by a colon; this is false: cleaning axmlns="q": yields a:, the
xmlns declaration removal having glued the leading letter onto the final
colon. -/
theorem C10_counterexample :
    hasLetterColon (cleanChars (("axmlns=\"q\":").data)) = true ∧
    clean_xml_response ("axmlns=\"q\":") = "a:" := by
  refine ⟨by decide, by decide⟩

/-- C10 (amended): on every input containing no double quote the cleaned
text contains no ASCII letter immediately followed by a colon, so every
maximal letter run immediately followed by a colon is deleted together
with its colon; with a double quote present, the later xmlns declaration
removal can recreate such an adjacency.  In particular a URL inside
element text loses its scheme: cleaning the document whose text holds
http://example.com yields //example.com in its place. -/
theorem C10_amended :
    (∀ s : List Char, '"' ∉ s → hasLetterColon (cleanChars s) = false) ∧
    clean_xml_response ("<T>http://example.com</T>") = "<T>//example.com</T>" := by
  refine ⟨?_, by decide⟩
  intro s h
  exact hasLetterColon_cleanChars_no_quote s h

/-- C10 witness: the amended statement applied to a concrete quote free
input. -/
theorem C10_witness :
    hasLetterColon (cleanChars (("<A>http://x</A>").data)) = false :=
  C10_amended.1 (("<A>http://x</A>").data) (by decide)
